import Mathlib

/-!
# Verification of the broadcast-relay server

Shallow embedding of `src/server.js`: an in-memory message store
(`let messages = []`), a Socket.IO connection handler that replays the
backlog on connect (`socket.emit` of `load_messages`), a
`new_message` handler that validates, appends and broadcasts
(`io.emit` of `display_message`), and a `disconnect` handler.

JavaScript payloads are modelled by `JSVal` (with JS truthiness and the
fact that `.trim()` only exists on strings); machine behaviour that can
throw is modelled with `Except`.
-/

namespace Relay

/-- A stored/broadcast message record `{ id: Date.now(), text: msg }`
from `server.js`. `Date.now()` is an integer number of milliseconds. -/
structure Message where
  id : Int
  text : String
deriving DecidableEq, Repr

/-- An identifier for a connected client (a socket id). -/
abbrev ClientId := Nat

/-- A JavaScript value as it may arrive as the `new_message` payload:
`null`, `undefined`, a string, a number, or some other object. -/
inductive JSVal where
  | null
  | undef
  | str (s : String)
  | num (n : Int)
  | obj
deriving DecidableEq, Repr

/-- JavaScript truthiness of a payload, as tested by `if (msg && ...)`:
`null`, `undefined`, `""` and `0` are falsy; other strings, other
numbers and objects are truthy. -/
def jsTruthy : JSVal → Bool
  | JSVal.null => false
  | JSVal.undef => false
  | JSVal.str s => s != ""
  | JSVal.num n => n != 0
  | JSVal.obj => true

/-- The JS error thrown when a method is called on a value that lacks
it, e.g. `(5).trim()`. -/
inductive JSError where
  | typeError
deriving DecidableEq, Repr

/-- JavaScript `String.prototype.trim()`: strip leading and trailing
whitespace. Modelled structurally on the character list. -/
def strTrim (s : String) : String :=
  String.mk (((s.data.dropWhile Char.isWhitespace).reverse.dropWhile
    Char.isWhitespace).reverse)

/-- `msg.trim()`: defined for strings, a `TypeError` otherwise. -/
def jsTrim : JSVal → Except JSError String
  | JSVal.str s => Except.ok (strTrim s)
  | _ => Except.error JSError.typeError

instance {ε α : Type} [DecidableEq ε] [DecidableEq α] : DecidableEq (Except ε α) := fun x y =>
  match x, y with
  | Except.ok a, Except.ok b =>
    if h : a = b then Decidable.isTrue (by rw [h])
    else Decidable.isFalse (by intro hc; cases hc; exact h rfl)
  | Except.error a, Except.error b =>
    if h : a = b then Decidable.isTrue (by rw [h])
    else Decidable.isFalse (by intro hc; cases hc; exact h rfl)
  | Except.ok _, Except.error _ => Decidable.isFalse (by intro hc; cases hc)
  | Except.error _, Except.ok _ => Decidable.isFalse (by intro hc; cases hc)

/-- Server state: the module-level `messages` array together with the
set of currently connected clients (kept by Socket.IO). -/
structure ServerState where
  messages : List Message
  clients : List ClientId
deriving DecidableEq, Repr

/-- The state at process start: `let messages = []`, no client connected. -/
def initState : ServerState := { messages := [], clients := [] }

/-- An event sent by the server to one client over its channel. -/
inductive ServerEvent where
  | loadMessages (dest : ClientId) (msgs : List Message)
  | displayMessage (dest : ClientId) (m : Message)
deriving DecidableEq, Repr

/-- The `io.on` connection handler: the client joins the active set and is
immediately sent `load_messages` carrying the current `messages` array. -/
def onConnect (st : ServerState) (c : ClientId) : ServerState × List ServerEvent :=
  ({ st with clients := st.clients ++ [c] },
   [ServerEvent.loadMessages c st.messages])

/-- The `socket.on` handler for `new_message` in `server.js`, with
the wall clock passed in as `now` (the value `Date.now()` returns):

```js
if (msg && msg.trim().length > 0) {
    const messageData = { id: Date.now(), text: msg };
    messages.push(messageData);
    io.emit(display_message_event, messageData);
}
```

Evaluating `msg.trim()` on a truthy non-string throws a `TypeError`
(modelled as `Except.error`); `io.emit` sends the event to every
connected client. Note the stored text is `msg`, not `msg.trim()`. -/
def newMessageHandler (st : ServerState) (now : Int) (msg : JSVal) :
    Except JSError (ServerState × List ServerEvent) :=
  if jsTruthy msg then
    match jsTrim msg with
    | Except.error e => Except.error e
    | Except.ok trimmed =>
      if trimmed.length > 0 then
        match msg with
        | JSVal.str s =>
          let messageData : Message := { id := now, text := s }
          Except.ok ({ st with messages := st.messages ++ [messageData] },
                     st.clients.map (fun c => ServerEvent.displayMessage c messageData))
        | _ => Except.ok (st, [])
      else
        Except.ok (st, [])
  else
    Except.ok (st, [])

/-- The `socket.on` handler for `disconnect`: the client leaves the
active set (done by Socket.IO); the handler body only logs, so no event
is sent and the store is untouched. -/
def onDisconnect (st : ServerState) (c : ClientId) : ServerState × List ServerEvent :=
  ({ st with clients := st.clients.erase c }, [])

/-- The events produced by one `new_message` invocation (none when the
handler throws). -/
def submitEvents (st : ServerState) (now : Int) (msg : JSVal) : List ServerEvent :=
  match newMessageHandler st now msg with
  | Except.ok (_, evs) => evs
  | Except.error _ => []

/-- The state after one `new_message` invocation (unchanged when the
handler throws, since the throw happens during validation, before any
push). -/
def submitState (st : ServerState) (now : Int) (msg : JSVal) : ServerState :=
  match newMessageHandler st now msg with
  | Except.ok (st', _) => st'
  | Except.error _ => st

/-- One externally triggered event of the system. -/
inductive Action where
  | connect (c : ClientId)
  | submit (now : Int) (msg : JSVal)
  | disconnect (c : ClientId)
deriving DecidableEq, Repr

/-- The state transition of one action. -/
def stepState (st : ServerState) : Action → ServerState
  | Action.connect c => (onConnect st c).1
  | Action.submit now msg => submitState st now msg
  | Action.disconnect c => (onDisconnect st c).1

/-- The state reached from the empty store by a sequence of actions. -/
def runActions (acts : List Action) : ServerState :=
  acts.foldl stepState initState

/-- The wall-clock values sampled by the submit actions of a run, in
order. -/
def submitTimes : List Action → List Int
  | [] => []
  | Action.submit t _ :: rest => t :: submitTimes rest
  | Action.connect _ :: rest => submitTimes rest
  | Action.disconnect _ :: rest => submitTimes rest

/-- A non-blank string is in particular non-empty. -/
lemma ne_empty_of_trim_pos {s : String} (h : (strTrim s).length > 0) : s ≠ "" := by
  intro he
  subst he
  simp [strTrim] at h

/-- Exhaustive description of one `new_message` invocation: it throws a
`TypeError`, or is a no-op, or appends one record built from the raw
string and broadcasts it to every connected client. -/
lemma newMessageHandler_cases (st : ServerState) (now : Int) (msg : JSVal) :
    newMessageHandler st now msg = Except.error JSError.typeError ∨
    newMessageHandler st now msg = Except.ok (st, []) ∨
    ∃ s, msg = JSVal.str s ∧ (strTrim s).length > 0 ∧
      newMessageHandler st now msg =
        Except.ok ({ st with messages := st.messages ++ [{ id := now, text := s }] },
          st.clients.map (fun c => ServerEvent.displayMessage c { id := now, text := s })) := by
  cases msg with
  | null => exact Or.inr (Or.inl rfl)
  | undef => exact Or.inr (Or.inl rfl)
  | num n =>
    by_cases hn : n = 0
    · subst hn; exact Or.inr (Or.inl rfl)
    · left; simp [newMessageHandler, jsTruthy, jsTrim, hn]
  | obj => left; simp [newMessageHandler, jsTruthy, jsTrim]
  | str s =>
    by_cases h0 : s = ""
    · subst h0
      exact Or.inr (Or.inl (by simp [newMessageHandler, jsTruthy]))
    · by_cases h1 : (strTrim s).length > 0
      · exact Or.inr (Or.inr ⟨s, rfl, h1,
          by simp [newMessageHandler, jsTruthy, jsTrim, h0, h1]⟩)
      · exact Or.inr (Or.inl (by simp [newMessageHandler, jsTruthy, jsTrim, h0, h1]))

/-- The value of the handler on an accepted (non-blank string) submission. -/
lemma newMessageHandler_accepted (st : ServerState) (now : Int) (s : String)
    (h : (strTrim s).length > 0) :
    newMessageHandler st now (JSVal.str s) =
      Except.ok ({ st with messages := st.messages ++ [{ id := now, text := s }] },
        st.clients.map (fun c => ServerEvent.displayMessage c { id := now, text := s })) := by
  have h0 : s ≠ "" := ne_empty_of_trim_pos h
  simp [newMessageHandler, jsTruthy, jsTrim, h0, h]

/-- The post-state of an accepted submission. -/
lemma submitState_accepted (st : ServerState) (now : Int) (s : String)
    (h : (strTrim s).length > 0) :
    submitState st now (JSVal.str s) =
      { st with messages := st.messages ++ [{ id := now, text := s }] } := by
  simp [submitState, newMessageHandler_accepted st now s h]

/-- The events of an accepted submission: one `display_message` per
connected client, all carrying the same record. -/
lemma submitEvents_accepted (st : ServerState) (now : Int) (s : String)
    (h : (strTrim s).length > 0) :
    submitEvents st now (JSVal.str s) =
      st.clients.map (fun c => ServerEvent.displayMessage c { id := now, text := s }) := by
  simp [submitEvents, newMessageHandler_accepted st now s h]

/-- One submit step either leaves the state alone or appends exactly
one non-blank record. -/
lemma submitState_eq (st : ServerState) (now : Int) (msg : JSVal) :
    submitState st now msg = st ∨
    ∃ s, msg = JSVal.str s ∧ (strTrim s).length > 0 ∧
      submitState st now msg = { st with messages := st.messages ++ [{ id := now, text := s }] } := by
  rcases newMessageHandler_cases st now msg with h | h | ⟨s, hm, hl, h⟩
  · left; simp [submitState, h]
  · left; simp [submitState, h]
  · right; exact ⟨s, hm, hl, by simp [submitState, h]⟩

/-- **C2.** For every state of the message store (any sequence `S` of
previously accepted messages), a newly connecting client is immediately
sent a `load_messages` event whose payload equals `S`, the same elements
in the same acceptance order; the store is not changed. -/
theorem connect_replays_backlog (st : ServerState) (c : ClientId) :
    onConnect st c =
      ({ st with clients := st.clients ++ [c] },
       [ServerEvent.loadMessages c st.messages]) := rfl

/-- **C3.** Each of the submissions `""`, `"   "`, `null` and
`undefined` makes the handler emit zero `display_message` events, leave
the store (indeed the whole state) unchanged, and surface no error. -/
theorem invalid_submissions_are_noops (st : ServerState) (now : Int) :
    newMessageHandler st now JSVal.null = Except.ok (st, []) ∧
    newMessageHandler st now JSVal.undef = Except.ok (st, []) ∧
    newMessageHandler st now (JSVal.str "") = Except.ok (st, []) ∧
    newMessageHandler st now (JSVal.str "   ") = Except.ok (st, []) :=
  ⟨rfl, rfl, rfl, by simp [newMessageHandler, jsTruthy, jsTrim, strTrim]⟩

/-- **C9.** The validation is not total over arbitrary payloads: on a
truthy non-string submission (the number `1`, or an object), evaluating
`msg.trim()` throws a `TypeError` instead of silently dropping the
submission. -/
theorem nonstring_submission_throws (st : ServerState) (now : Int) :
    jsTruthy (JSVal.num 1) = true ∧
    newMessageHandler st now (JSVal.num 1) = Except.error JSError.typeError ∧
    jsTruthy JSVal.obj = true ∧
    newMessageHandler st now JSVal.obj = Except.error JSError.typeError :=
  ⟨rfl, rfl, rfl, rfl⟩

/-- **C10.** For every accepted submission, the payload of the resulting
`display_message` broadcast is exactly the record appended to the store:
every broadcast event carries the record that is now the last element of
the store. -/
theorem broadcast_payload_is_appended_record (st : ServerState) (now : Int) (s : String)
    (hs : (strTrim s).length > 0) :
    (submitState st now (JSVal.str s)).messages.getLast? = some { id := now, text := s } ∧
    ∀ e ∈ submitEvents st now (JSVal.str s),
      ∃ c, e = ServerEvent.displayMessage c { id := now, text := s } := by
  constructor
  · rw [submitState_accepted st now s hs]
    simp
  · intro e he
    rw [submitEvents_accepted st now s hs] at he
    rcases List.mem_map.mp he with ⟨c, _, hc⟩
    exact ⟨c, hc.symm⟩

/-- Witness for C10 at a concrete input. -/
theorem broadcast_payload_is_appended_record_witness :
    (strTrim "hi").length > 0 ∧
    (submitState { messages := [], clients := [0] } 7 (JSVal.str "hi")).messages.getLast? =
      some { id := 7, text := "hi" } :=
  ⟨by decide,
   (broadcast_payload_is_appended_record { messages := [], clients := [0] } 7 "hi" (by decide)).1⟩

/-- **C1 (counterexample).** The claim "the broker calls append with the
trimmed text, and every connected client receives a `display_message`
whose text equals `T.trim()`" is false for `T = " hi"` with one
connected client: the stored and broadcast text is the raw `" hi"`, and
the client receives zero events whose text equals `T.trim() = "hi"`. -/
theorem untrimmed_broadcast_cex :
    strTrim " hi" = "hi" ∧
    submitEvents { messages := [], clients := [0] } 7 (JSVal.str " hi") =
      [ServerEvent.displayMessage 0 { id := 7, text := " hi" }] ∧
    (submitEvents { messages := [], clients := [0] } 7 (JSVal.str " hi")).count
      (ServerEvent.displayMessage 0 { id := 7, text := "hi" }) = 0 ∧
    (submitState { messages := [], clients := [0] } 7 (JSVal.str " hi")).messages =
      [{ id := 7, text := " hi" }] := by
  refine ⟨by decide, by decide, by decide, by decide⟩

/-- **C1 (as amended).** For every accepted submission of a non-blank
raw text `T` by any connected client, the broker appends the raw
(untrimmed) text `T`, and every currently connected client (including
the submitter, assuming distinct client ids) receives exactly one
`display_message` event whose text field equals `T` itself. -/
theorem accepted_submission_fanout (st : ServerState) (now : Int) (s : String)
    (c : ClientId) (hs : (strTrim s).length > 0) (hnd : st.clients.Nodup)
    (hc : c ∈ st.clients) :
    submitState st now (JSVal.str s) =
      { st with messages := st.messages ++ [{ id := now, text := s }] } ∧
    (submitEvents st now (JSVal.str s)).count
      (ServerEvent.displayMessage c { id := now, text := s }) = 1 := by
  refine ⟨submitState_accepted st now s hs, ?_⟩
  rw [submitEvents_accepted st now s hs]
  have hinj : Function.Injective
      (fun c' => ServerEvent.displayMessage c' { id := now, text := s }) := by
    intro a b hab
    simpa using hab
  rw [List.count_map_of_injective st.clients _ hinj]
  exact List.count_eq_one_of_mem hnd hc

/-- Witness for the amended C1 at a concrete input: two connected
clients, the submitter receives its own message exactly once. -/
theorem accepted_submission_fanout_witness :
    (strTrim "hello").length > 0 ∧ ([0, 1] : List ClientId).Nodup ∧ (0 : ClientId) ∈ [0, 1] ∧
    (submitEvents { messages := [], clients := [0, 1] } 4 (JSVal.str "hello")).count
      (ServerEvent.displayMessage 0 { id := 4, text := "hello" }) = 1 :=
  ⟨by decide, by decide, by decide,
   (accepted_submission_fanout { messages := [], clients := [0, 1] } 4 "hello" 0
     (by decide) (by decide) (by decide)).2⟩

/-- **C6.** The store is append-only: for every handler invocation
(connect, submit — including a throwing one — or disconnect), the store
after the invocation is either unchanged or the old store with exactly
one record appended; no existing entry is mutated, removed or
reordered, and at most one entry is added per invocation. -/
theorem store_append_only (st : ServerState) (a : Action) :
    (stepState st a).messages = st.messages ∨
    ∃ m, (stepState st a).messages = st.messages ++ [m] := by
  cases a with
  | connect c => exact Or.inl rfl
  | disconnect c => exact Or.inl rfl
  | submit now msg =>
    rcases submitState_eq st now msg with h | ⟨s, _, _, h⟩
    · exact Or.inl (by simp [stepState, h])
    · exact Or.inr ⟨{ id := now, text := s }, by simp [stepState, h]⟩

/-- **C7.** The disconnect handler removes the client from the active
set and has no other side effect: the store is unchanged, no event is
sent, and a subsequent accepted submission is still delivered to every
other still-connected client. -/
theorem disconnect_isolation (st : ServerState) (c b : ClientId) (now : Int)
    (s : String) (hb : b ∈ st.clients) (hbc : b ≠ c)
    (hs : (strTrim s).length > 0) :
    (onDisconnect st c).1.messages = st.messages ∧
    (onDisconnect st c).2 = [] ∧
    (onDisconnect st c).1.clients = st.clients.erase c ∧
    ServerEvent.displayMessage b { id := now, text := s } ∈
      submitEvents (onDisconnect st c).1 now (JSVal.str s) := by
  refine ⟨rfl, rfl, rfl, ?_⟩
  rw [submitEvents_accepted _ now s hs]
  exact List.mem_map_of_mem _ ((List.mem_erase_of_ne hbc).mpr hb)

/-- Witness for C7 at a concrete input: client 0 disconnects, client 1
still receives the next broadcast. -/
theorem disconnect_isolation_witness :
    (1 : ClientId) ∈ ([0, 1] : List ClientId) ∧ (1 : ClientId) ≠ 0 ∧
    (strTrim "x").length > 0 ∧
    ServerEvent.displayMessage 1 { id := 9, text := "x" } ∈
      submitEvents (onDisconnect { messages := [], clients := [0, 1] } 0).1 9
        (JSVal.str "x") :=
  ⟨by decide, by decide, by decide,
   (disconnect_isolation { messages := [], clients := [0, 1] } 0 1 9 "x"
     (by decide) (by decide) (by decide)).2.2.2⟩

/-- Modelled from the spec: the per-client delivery of one broadcast.
The fan-out loop of `io.emit` is Socket.IO library code, not part of
the sources of this repository; the spec requires that a send to each client
either succeeds or is a no-op failure for that client only, never
aborting the loop or crashing ("a failed send to one client must not
prevent delivery to others and must not raise a fatal error").
`sendFails` records the clients whose sends fail. -/
def deliverBroadcast (clients : List ClientId) (sendFails : ClientId → Bool)
    (m : Message) : List ServerEvent :=
  (clients.filter (fun c => !(sendFails c))).map
    (fun c => ServerEvent.displayMessage c m)

/-- **C8.** During a broadcast over any set of connected clients and
any pattern of per-client send failures, every client whose own send
does not fail still receives the `display_message` event — in
particular a failure for one client (e.g. one already disconnected)
never prevents delivery to the others — and the broadcast is a total
function, raising no fatal error. -/
theorem broadcast_failure_isolation (clients : List ClientId)
    (sendFails : ClientId → Bool) (m : Message) (b : ClientId)
    (hb : b ∈ clients) (hfb : sendFails b = false) :
    ServerEvent.displayMessage b m ∈ deliverBroadcast clients sendFails m := by
  apply List.mem_map_of_mem
  simp [List.mem_filter, hb, hfb]

/-- Witness for C8 at a concrete input: the send to client 0 fails,
client 1 still receives the event. -/
theorem broadcast_failure_isolation_witness :
    (1 : ClientId) ∈ ([0, 1] : List ClientId) ∧
    (fun c : ClientId => c == 0) 1 = false ∧
    ServerEvent.displayMessage 1 { id := 2, text := "m" } ∈
      deliverBroadcast [0, 1] (fun c => c == 0) { id := 2, text := "m" } :=
  ⟨by decide, by decide,
   broadcast_failure_isolation [0, 1] (fun c => c == 0) { id := 2, text := "m" } 1
     (by decide) (by decide)⟩

/-- The store invariant of the data model: every stored text is
non-blank after trimming. -/
def storeInvariant (st : ServerState) : Prop :=
  ∀ m ∈ st.messages, (strTrim m.text).length > 0

/-- One step of any handler preserves the store invariant. -/
lemma stepState_preserves_invariant (st : ServerState) (a : Action)
    (h : storeInvariant st) : storeInvariant (stepState st a) := by
  cases a with
  | connect c => exact h
  | disconnect c => exact h
  | submit now msg =>
    rcases submitState_eq st now msg with he | ⟨s, _, hl, he⟩
    · simpa [stepState, he] using h
    · intro m hm
      simp only [stepState, he, List.mem_append, List.mem_singleton] at hm
      rcases hm with hm | hm
      · exact h m hm
      · subst hm; exact hl

/-- The invariant holds along any fold of steps. -/
lemma foldl_preserves_invariant (acts : List Action) :
    ∀ st : ServerState, storeInvariant st →
      storeInvariant (acts.foldl stepState st) := by
  induction acts with
  | nil => intro st h; exact h
  | cons a rest ih =>
    intro st h
    exact ih _ (stepState_preserves_invariant st a h)

/-- **C4.** In every reachable state of the system (after any sequence
of connect, submit and disconnect events starting from the empty
store), every element of the message store has a text that is non-blank
after trimming. -/
theorem store_texts_nonblank (acts : List Action) :
    ∀ m ∈ (runActions acts).messages, (strTrim m.text).length > 0 :=
  foldl_preserves_invariant acts initState (by intro m hm; simp [initState] at hm)

/-- Witness for C4 at a concrete run. -/
theorem store_texts_nonblank_witness :
    ({ id := 5, text := " hi " } : Message) ∈
      (runActions [Action.connect 0, Action.submit 5 (JSVal.str " hi ")]).messages ∧
    (strTrim (Message.text { id := 5, text := " hi " })).length > 0 :=
  ⟨by decide,
   store_texts_nonblank [Action.connect 0, Action.submit 5 (JSVal.str " hi ")]
     { id := 5, text := " hi " } (by decide)⟩

/-- The ids of the stored messages, in acceptance order. -/
def storeIds (st : ServerState) : List Int :=
  st.messages.map Message.id

/-- Connect steps do not touch the store. -/
lemma storeIds_connect (st : ServerState) (c : ClientId) :
    storeIds (stepState st (Action.connect c)) = storeIds st := rfl

/-- Disconnect steps do not touch the store. -/
lemma storeIds_disconnect (st : ServerState) (c : ClientId) :
    storeIds (stepState st (Action.disconnect c)) = storeIds st := rfl

/-- Monotonicity of the stored ids along a fold, given that the clock
readings still to come are sorted and no smaller than any id already
stored. -/
lemma foldl_ids_sorted (acts : List Action) :
    ∀ st : ServerState,
      List.Pairwise (· ≤ ·) (storeIds st) →
      List.Pairwise (· ≤ ·) (submitTimes acts) →
      (∀ i ∈ storeIds st, ∀ t ∈ submitTimes acts, i ≤ t) →
      List.Pairwise (· ≤ ·) (storeIds (acts.foldl stepState st)) := by
  induction acts with
  | nil => intro st hst _ _; exact hst
  | cons a rest ih =>
    intro st hst hts hcross
    cases a with
    | connect c =>
      exact ih _ (by rwa [storeIds_connect]) hts
        (by rwa [storeIds_connect])
    | disconnect c =>
      exact ih _ (by rwa [storeIds_disconnect]) hts
        (by rwa [storeIds_disconnect])
    | submit t msg =>
      have hts' : List.Pairwise (· ≤ ·) (submitTimes rest) :=
        (List.pairwise_cons.mp hts).2
      have hthead : ∀ u ∈ submitTimes rest, t ≤ u :=
        (List.pairwise_cons.mp hts).1
      rcases submitState_eq st t msg with he | ⟨s, _, _, he⟩
      · have hid : storeIds (stepState st (Action.submit t msg)) = storeIds st := by
          simp [stepState, he]
        refine ih _ (by rwa [hid]) hts' ?_
        rw [hid]
        intro i hi u hu
        exact hcross i hi u (List.mem_cons_of_mem _ hu)
      · have hid : storeIds (stepState st (Action.submit t msg)) =
            storeIds st ++ [t] := by
          simp [stepState, he, storeIds]
        refine ih _ ?_ hts' ?_
        · rw [hid]
          rw [List.pairwise_append]
          refine ⟨hst, List.pairwise_singleton _ _, ?_⟩
          intro i hi u hu
          rw [List.mem_singleton] at hu
          subst hu
          exact hcross i hi u (List.mem_cons_self _ _)
        · rw [hid]
          intro i hi u hu
          rcases List.mem_append.mp hi with hi | hi
          · exact hcross i hi u (List.mem_cons_of_mem _ hu)
          · rw [List.mem_singleton] at hi
            subst hi
            exact hthead u hu

/-- Every stored id of a run is one of the clock readings sampled by
the submit actions of the run. -/
lemma foldl_ids_from_times (acts : List Action) :
    ∀ st : ServerState, ∀ m ∈ (acts.foldl stepState st).messages,
      m ∈ st.messages ∨ m.id ∈ submitTimes acts := by
  induction acts with
  | nil => intro st m hm; exact Or.inl hm
  | cons a rest ih =>
    intro st m hm
    cases a with
    | connect c =>
      rcases ih _ m hm with h | h
      · exact Or.inl h
      · exact Or.inr h
    | disconnect c =>
      rcases ih _ m hm with h | h
      · exact Or.inl h
      · exact Or.inr h
    | submit t msg =>
      rcases ih _ m hm with h | h
      · rcases submitState_eq st t msg with he | ⟨s, _, _, he⟩
        · rw [show stepState st (Action.submit t msg) = submitState st t msg from rfl,
            he] at h
          exact Or.inl h
        · rw [show stepState st (Action.submit t msg) = submitState st t msg from rfl,
            he] at h
          simp only [List.mem_append, List.mem_singleton] at h
          rcases h with h | h
          · exact Or.inl h
          · subst h
            exact Or.inr (List.mem_cons_self _ _)
      · exact Or.inr (List.mem_cons_of_mem _ h)

/-- **C5.** Every stored (and hence broadcast) record carries a numeric
id drawn from the wall clock sampled at its accepting submit action,
and if the wall-clock readings along the run are non-decreasing then
the ids of the stored messages are non-decreasing in acceptance
order. -/
theorem stored_ids_nondecreasing (acts : List Action)
    (h : List.Pairwise (· ≤ ·) (submitTimes acts)) :
    List.Pairwise (· ≤ ·) ((runActions acts).messages.map Message.id) ∧
    ∀ m ∈ (runActions acts).messages, m.id ∈ submitTimes acts := by
  constructor
  · exact foldl_ids_sorted acts initState (by simp [initState, storeIds]) h
      (by simp [initState, storeIds])
  · intro m hm
    rcases foldl_ids_from_times acts initState m hm with hc | hc
    · simp [initState] at hc
    · exact hc

/-- Witness for C5 at a concrete run with two submits. -/
theorem stored_ids_nondecreasing_witness :
    List.Pairwise (· ≤ ·)
      (submitTimes [Action.submit 3 (JSVal.str "a"), Action.submit 8 (JSVal.str "b")]) ∧
    List.Pairwise (· ≤ ·)
      ((runActions [Action.submit 3 (JSVal.str "a"), Action.submit 8 (JSVal.str "b")]).messages.map
        Message.id) ∧
    ({ id := 8, text := "b" } : Message).id ∈
      submitTimes [Action.submit 3 (JSVal.str "a"), Action.submit 8 (JSVal.str "b")] :=
  ⟨by decide,
   (stored_ids_nondecreasing
     [Action.submit 3 (JSVal.str "a"), Action.submit 8 (JSVal.str "b")] (by decide)).1,
   (stored_ids_nondecreasing
     [Action.submit 3 (JSVal.str "a"), Action.submit 8 (JSVal.str "b")] (by decide)).2
     { id := 8, text := "b" } (by decide)⟩

end Relay
